import Mathlib

/-!
Benchmark harness of ncnn-android-benchmark.

A shallow embedding of `app/src/main/jni/benchmarkncnn_jni.cpp`:

* `YoloXFocus.forward`, the space-to-depth operator, as the pointer walk the
  source performs over one channel plane at a time;
* `BenchmarkNet.run`, the warm-up and measurement loops with their running
  minimum, maximum and sum;
* `Run`, the entry point with its two guards, the option bundle it prepares,
  the allocators it creates and deletes, and the result object it fills.

Conventions.  The `int` values of the source are unbounded integers or
naturals here: tensor dimensions and loop counters stay far below `2^31` in
every tensor that can be allocated.  A `float`/`double` that is only copied
(tensor elements) is a value of an arbitrary type; the timing values are exact
rationals, so rounding is outside the model.
-/

namespace ncnn

/-- Dense tensor `ncnn::Mat` with three dimensions.  `data q` is the plane the
source obtains from `channel(q)`: a row-major buffer in which row `y` starts at
offset `w * y`, which is what `row(y)` returns. -/
structure Mat (α : Type) where
  w : Nat
  h : Nat
  c : Nat
  data : Nat → Nat → α

/-- Offset of the first element of row `y` in a channel plane, `Mat::row(y)`. -/
def Mat.row {α : Type} (m : Mat α) (y : Nat) : Nat := m.w * y

/-- Element at channel `q`, row `y`, column `x`: `m.channel(q).row(y)[x]`. -/
def Mat.elem {α : Type} (m : Mat α) (q y x : Nat) : α := m.data q (m.row y + x)

end ncnn

namespace YoloXFocus

open ncnn

/-- One executed copy statement `*outptr = *ptr` of `forward`: the source
channel and the offset read in it, the output channel and the offset written
in it. -/
structure Copy where
  srcChannel : Nat
  srcOffset : Nat
  dstChannel : Nat
  dstOffset : Nat
  deriving DecidableEq, Repr

/-- State of the walk over one output channel: the read cursor `ptr` and the
write cursor `outptr` as offsets into their planes, the contents of the output
plane, and the record of the offset pairs `(ptr, outptr)` dereferenced so far. -/
structure Cursor (α : Type) where
  ptr : Nat
  outptr : Nat
  dst : Nat → α
  log : List (Nat × Nat)

/-- The loop `for (int j = 0; j < outw; j++)`, with `n` iterations left:
`*outptr = *ptr; outptr += 1; ptr += 2;`. -/
def innerLoop {α : Type} (src : Nat → α) : Nat → Cursor α → Cursor α
  | 0, s => s
  | n + 1, s =>
      innerLoop src n
        { ptr := s.ptr + 2
          outptr := s.outptr + 1
          dst := Function.update s.dst s.outptr (src s.ptr)
          log := s.log ++ [(s.ptr, s.outptr)] }

/-- The loop `for (int i = 0; i < outh; i++)`, with `n` iterations left: one
pass of the inner loop, then `ptr += w;`. -/
def outerLoop {α : Type} (src : Nat → α) (w outw : Nat) : Nat → Cursor α → Cursor α
  | 0, s => s
  | n + 1, s =>
      let s1 := innerLoop src outw s
      outerLoop src w outw n { s1 with ptr := s1.ptr + w }

/-- Body of the loop over output channels for channel `p`:
`ptr = bottom_blob.channel(p % channels).row((p / channels) % 2) + ((p / channels) / 2)`,
`outptr = top_blob.channel(p)`, then the two nested loops. -/
def channelBody {α : Type} (bottom_blob : Mat α) (channels outw outh : Nat) (p : Nat)
    (plane : Nat → α) : Cursor α :=
  outerLoop (bottom_blob.data (p % channels)) bottom_blob.w outw outh
    { ptr := bottom_blob.row ((p / channels) % 2) + (p / channels) / 2
      outptr := 0
      dst := plane
      log := [] }

/-- Output under construction: the planes of `top_blob` and the copies
executed so far. -/
structure Top (α : Type) where
  data : Nat → Nat → α
  trace : List Copy

/-- The loop `for (int p = 0; p < outc; p++)`, with `n` iterations left and
`p` the current channel.  The channels touch disjoint planes, so the order in
which the parallel loop runs them does not matter; they are run in order. -/
def channelLoop {α : Type} (bottom_blob : Mat α) (channels outw outh : Nat) :
    Nat → Nat → Top α → Top α
  | 0, _, t => t
  | n + 1, p, t =>
      let s := channelBody bottom_blob channels outw outh p (t.data p)
      channelLoop bottom_blob channels outw outh n (p + 1)
        { data := Function.update t.data p s.dst
          trace := t.trace ++ s.log.map (fun a => ⟨p % channels, a.1, p, a.2⟩) }

/-- What `forward` leaves behind: its return value, `top_blob`, and the copies
it executed. -/
structure Result (α : Type) where
  ret : Int
  top_blob : Mat α
  trace : List Copy

/-- `YoloXFocus::forward`.  `top_blob.create` belongs to the ncnn library: its
outcome is the parameter `topEmpty`, the value of `top_blob.empty()` after the
call, and `fresh` is the content of the buffer it hands out. -/
def forward {α : Type} (bottom_blob : Mat α) (topEmpty : Bool) (fresh : Nat → Nat → α) :
    Result α :=
  let w := bottom_blob.w
  let h := bottom_blob.h
  let channels := bottom_blob.c
  let outw := w / 2
  let outh := h / 2
  let outc := channels * 4
  if topEmpty then
    { ret := -100, top_blob := { w := outw, h := outh, c := outc, data := fresh }, trace := [] }
  else
    let t := channelLoop bottom_blob channels outw outh outc 0 { data := fresh, trace := [] }
    { ret := 0, top_blob := { w := outw, h := outh, c := outc, data := t.data }, trace := t.trace }

end YoloXFocus

/-- A pointer that may be null. -/
abbrev Ptr (α : Type) : Type := Option α

/-- The allocator objects `Run` can create with `new`. -/
inductive Allocator where
  | blob_pool_allocator
  | workspace_pool_allocator
  | blob_vkallocator
  | staging_vkallocator
  deriving DecidableEq, Repr

namespace ncnn

/-- Modelled from the spec: the declaration of `ncnn::Option` is not part of
the sources.  The fields are the ones `Run` assigns, and `use_packing_layout`,
the packed-4 tensor layout hint of the execution options. -/
structure Option where
  lightmode : Bool
  num_threads : Int
  blob_allocator : Ptr Allocator
  workspace_allocator : Ptr Allocator
  blob_vkallocator : Ptr Allocator
  workspace_vkallocator : Ptr Allocator
  staging_vkallocator : Ptr Allocator
  use_winograd_convolution : Bool
  use_sgemm_convolution : Bool
  use_packing_layout : Bool
  use_vulkan_compute : Bool
  use_fp16_packed : Bool
  use_fp16_storage : Bool
  use_fp16_arithmetic : Bool
  use_int8_storage : Bool
  use_int8_arithmetic : Bool
  use_shader_pack8 : Bool
  use_bf16_storage : Bool
  deriving DecidableEq, Repr

end ncnn

namespace BenchmarkNet

/-- The constant `DBL_MAX` of `<float.h>`, the largest finite `double`. -/
def DBL_MAX : ℚ := 2 ^ 1024 - 2 ^ 971

/-- One graph evaluation as `run` sees it (`create_extractor`, `ex.input`,
`ex.extract`): the status `ex.extract` returns and the time the evaluation
takes on the clock of `ncnn::get_current_time`. -/
structure Evaluation where
  status : Int
  elapsed : ℚ

/-- Variables of `run`, with the clock and the number of evaluations
performed so far. -/
structure State where
  clock : ℚ
  calls : Nat
  time_min : ℚ
  time_max : ℚ
  time_avg : ℚ

/-- The block `ex = create_extractor(); ex.input("images", in);
ex.extract("output", out);`.  The evaluation is the next one of the
environment `env`; it advances the clock, and the status `ex.extract` returns
is not looked at. -/
def evaluate (env : Nat → Evaluation) (s : State) : State :=
  { s with clock := s.clock + (env s.calls).elapsed, calls := s.calls + 1 }

/-- The loop `for (int i = 0; i < g_warmup_loop_count; i++)`, with `n`
iterations left. -/
def warmupLoop (env : Nat → Evaluation) : Nat → State → State
  | 0, s => s
  | n + 1, s => warmupLoop env n (evaluate env s)

/-- The loop `for (int i = 0; i < loops; i++)`, with `n` iterations left. -/
def timedLoop (env : Nat → Evaluation) : Nat → State → State
  | 0, s => s
  | n + 1, s =>
      let start := s.clock
      let s1 := evaluate env s
      let «end» := s1.clock
      let time := «end» - start
      timedLoop env n
        { s1 with
          time_min := min s1.time_min time
          time_max := max s1.time_max time
          time_avg := s1.time_avg + time }

/-- What `run` hands back: its return value, the three reference parameters,
and the number of graph evaluations it performed. -/
structure Outcome where
  ret : Int
  time_min : ℚ
  time_max : ℚ
  time_avg : ℚ
  calls : Nat

/-- `BenchmarkNet::run`.  `env k` is the `k`-th graph evaluation of the call
and `clock0` the clock when it starts; every evaluation gets the same input
tensor of 416 by 416 by 3, which is part of `env`.  A loop whose bound `loops` is zero or
negative runs no iteration.  The division `time_avg /= loops` is the exact
one; for `loops = 0`, where the source divides by zero, it yields 0. -/
def run (loops : Int) (env : Nat → Evaluation) (clock0 : ℚ) : Outcome :=
  let s0 : State :=
    { clock := clock0, calls := 0, time_min := DBL_MAX, time_max := -DBL_MAX, time_avg := 0 }
  let g_warmup_loop_count := 4
  let s1 := warmupLoop env g_warmup_loop_count s0
  let s2 := timedLoop env loops.toNat s1
  { ret := 0
    time_min := s2.time_min
    time_max := s2.time_max
    time_avg := s2.time_avg / (loops : ℚ)
    calls := s2.calls }

end BenchmarkNet

/-- The table `g_models`. -/
def g_models : List String := ["yolox-tiny", "yolox-nano"]

/-- The parameters of `Run` after the asset manager. -/
structure Args where
  threads : Int
  powersave : Int
  mempool : Bool
  winograd : Bool
  sgemm : Bool
  pack4 : Bool
  bf16s : Bool
  gpu : Bool
  gpufp16p : Bool
  gpufp16s : Bool
  gpufp16a : Bool
  gpupack8 : Bool
  model : Int
  loops : Int
  deriving DecidableEq, Repr

/-- What `Run` finds around it: the number of devices `ncnn::get_gpu_count()`
reports, the value of a default-constructed `ncnn::Option`, the graph
evaluations the engine will perform, and the clock. -/
structure Host where
  gpu_count : Nat
  opt0 : ncnn.Option
  env : Nat → BenchmarkNet.Evaluation
  clock0 : ℚ

/-- The object `Run` returns.  A field the native code does not set is
`none`; the narrowing of the three times to `float` is left out. -/
structure Obj where
  retcode : Int
  min : Option ℚ
  max : Option ℚ
  avg : Option ℚ

/-- The calls `Run` makes that create, configure or release a resource. -/
inductive Event where
  | new (a : Allocator)
  | get_gpu_device (index : Nat)
  | set_cpu_powersave (powersave : Int)
  | net (opt : ncnn.Option)
  | set_vulkan_device
  | register_custom_layer (name : String)
  | load_param (path : String)
  | load_model
  | run (loops : Int)
  | delete (a : Allocator)
  deriving DecidableEq, Repr

/-- The statement `delete p;`, which does nothing for a null pointer. -/
def delete (p : Ptr Allocator) : List Event :=
  match p with
  | none => []
  | some a => [Event.delete a]

/-- The pointer variables `Run` declares, all null at first. -/
structure Pointers where
  blob_pool_allocator : Ptr Allocator
  workspace_pool_allocator : Ptr Allocator
  blob_vkallocator : Ptr Allocator
  staging_vkallocator : Ptr Allocator

/-- The pointer variables after the statements `if (mempool)` and `if (gpu)`
of `Run`. -/
def pointers (a : Args) : Pointers :=
  { blob_pool_allocator := if a.mempool then some Allocator.blob_pool_allocator else none
    workspace_pool_allocator :=
      if a.mempool then some Allocator.workspace_pool_allocator else none
    blob_vkallocator := if a.gpu then some Allocator.blob_vkallocator else none
    staging_vkallocator := if a.gpu then some Allocator.staging_vkallocator else none }

/-- The block `// prepare opt` of `Run`: the option bundle as it stands when
it is copied into `net.opt`, starting from the default-constructed `opt0`. -/
def prepare_opt (opt0 : ncnn.Option) (a : Args) : ncnn.Option :=
  let ptrs := pointers a
  let opt := { opt0 with lightmode := true, num_threads := a.threads }
  let opt :=
    if a.mempool then
      { opt with blob_allocator := ptrs.blob_pool_allocator
                 workspace_allocator := ptrs.workspace_pool_allocator }
    else opt
  let opt :=
    if a.gpu then
      { opt with blob_vkallocator := ptrs.blob_vkallocator
                 workspace_vkallocator := ptrs.blob_vkallocator
                 staging_vkallocator := ptrs.staging_vkallocator }
    else opt
  { opt with
    use_winograd_convolution := a.winograd
    use_sgemm_convolution := a.sgemm
    use_vulkan_compute := a.gpu
    use_fp16_packed := a.gpufp16p
    use_fp16_storage := a.gpufp16s
    use_fp16_arithmetic := a.gpufp16a
    use_int8_storage := true
    use_int8_arithmetic := false
    use_shader_pack8 := a.gpupack8
    use_bf16_storage := a.bf16s }

/-- What an invocation of `Run` leaves behind: the object it returns, the
resource calls it made in order, and the number of graph evaluations. -/
structure Invocation where
  obj : Obj
  events : List Event
  evaluations : Nat

/-- `Java_com_tencent_benchmarkncnn_BenchmarkNcnn_Run`.  The test
`model >= sizeof(g_models) / sizeof(const char *)` compares in `size_t`; the
conversion leaves a non-negative `model` as it is, and a negative one is
caught by `model < 0` before. -/
def Java_com_tencent_benchmarkncnn_BenchmarkNcnn_Run (host : Host) (a : Args) : Invocation :=
  if a.gpu = true ∧ host.gpu_count = 0 then
    { obj := { retcode := 1, min := none, max := none, avg := none }
      events := [], evaluations := 0 }
  else if a.model < 0 ∨ a.model ≥ (g_models.length : Int) then
    { obj := { retcode := 2, min := none, max := none, avg := none }
      events := [], evaluations := 0 }
  else
    let ptrs := pointers a
    let opt := prepare_opt host.opt0 a
    let created : List Event :=
      (if a.mempool then
        [Event.new Allocator.blob_pool_allocator, Event.new Allocator.workspace_pool_allocator]
       else [])
      ++ (if a.gpu then
        [Event.get_gpu_device 0, Event.new Allocator.blob_vkallocator,
         Event.new Allocator.staging_vkallocator]
       else [])
    let loaded : List Event :=
      [Event.set_cpu_powersave a.powersave, Event.net opt]
      ++ (if a.gpu then [Event.set_vulkan_device] else [])
      ++ [Event.register_custom_layer "YoloXFocus",
          Event.load_param (g_models.getD a.model.toNat "" ++ ".param"),
          Event.load_model, Event.run a.loops]
    let r := BenchmarkNet.run a.loops host.env host.clock0
    let deleted : List Event :=
      delete ptrs.blob_pool_allocator ++ delete ptrs.workspace_pool_allocator
      ++ delete ptrs.blob_vkallocator ++ delete ptrs.staging_vkallocator
    if r.ret ≠ 0 then
      { obj := { retcode := 3, min := none, max := none, avg := none }
        events := created ++ loaded ++ deleted, evaluations := r.calls }
    else
      { obj := { retcode := 0, min := some r.time_min, max := some r.time_max,
                 avg := some r.time_avg }
        events := created ++ loaded ++ deleted, evaluations := r.calls }

/-! ## Sample inputs and auxiliary notions -/

namespace YoloXFocus

/-- Sample input of width 8, height 8 and 2 channels whose value at channel
`q`, row `y`, column `x` is `64 * q + 8 * y + x`: distinct at every position. -/
def sampleBlob : ncnn.Mat Nat := { w := 8, h := 8, c := 2, data := fun q off => 64 * q + off }

end YoloXFocus

namespace BenchmarkNet

/-- The elapsed times of the `n` evaluations that follow the first `k`. -/
def times (env : Nat → Evaluation) (k n : Nat) : List ℚ :=
  (List.range n).map (fun i => (env (k + i)).elapsed)

/-- Environment in which the `k`-th evaluation succeeds and takes `k` ms. -/
def ramp : Nat → Evaluation := fun k => { status := 0, elapsed := (k : ℚ) }

/-- Environment in which every evaluation succeeds and takes the time `d`. -/
def steady (d : ℚ) : Nat → Evaluation := fun _ => { status := 0, elapsed := d }

end BenchmarkNet

/-- A value for the default-constructed `ncnn::Option`, with the packed
layout switched on. -/
def sampleOption : ncnn.Option :=
  { lightmode := true, num_threads := 1
    blob_allocator := none, workspace_allocator := none
    blob_vkallocator := none, workspace_vkallocator := none, staging_vkallocator := none
    use_winograd_convolution := true, use_sgemm_convolution := true
    use_packing_layout := true, use_vulkan_compute := false
    use_fp16_packed := true, use_fp16_storage := true, use_fp16_arithmetic := true
    use_int8_storage := true, use_int8_arithmetic := true
    use_shader_pack8 := false, use_bf16_storage := false }

/-- Environment in which every graph evaluation reports the status -100 of a
failed allocation in the Focus operator. -/
def failingEnv : Nat → BenchmarkNet.Evaluation := fun _ => { status := -100, elapsed := 5 }

/-- A request for the first model on 4 threads with the memory pool, without
GPU, for one loop. -/
def sampleArgs : Args :=
  { threads := 4, powersave := 0, mempool := true, winograd := true, sgemm := true
    pack4 := false, bf16s := false, gpu := false, gpufp16p := false, gpufp16s := false
    gpufp16a := false, gpupack8 := false, model := 0, loops := 1 }

/-- A host without compute device, on which every evaluation takes 5 ms. -/
def hostNoGpu : Host :=
  { gpu_count := 0, opt0 := sampleOption, env := BenchmarkNet.steady 5, clock0 := 0 }

/-- A host without compute device on which every evaluation fails. -/
def hostFailing : Host :=
  { gpu_count := 0, opt0 := sampleOption, env := failingEnv, clock0 := 0 }

/-! ## Facts about the Focus walk -/

namespace YoloXFocus

open ncnn

theorem innerLoop_ptr {α : Type} (src : Nat → α) (n : Nat) (s : Cursor α) :
    (innerLoop src n s).ptr = s.ptr + 2 * n := by
  induction n generalizing s with
  | zero => rfl
  | succ n ih => rw [innerLoop, ih]; simp only; omega

theorem innerLoop_outptr {α : Type} (src : Nat → α) (n : Nat) (s : Cursor α) :
    (innerLoop src n s).outptr = s.outptr + n := by
  induction n generalizing s with
  | zero => rfl
  | succ n ih => rw [innerLoop, ih]; simp only; omega

theorem innerLoop_log {α : Type} (src : Nat → α) (n : Nat) (s : Cursor α) :
    (innerLoop src n s).log
      = s.log ++ (List.range n).map (fun j => (s.ptr + 2 * j, s.outptr + j)) := by
  induction n generalizing s with
  | zero => simp [innerLoop]
  | succ n ih =>
      rw [innerLoop, ih, List.range_succ_eq_map]
      simp only [List.map_cons, List.map_map, List.append_assoc, List.singleton_append,
        Nat.mul_zero, Nat.add_zero]
      congr 2
      apply List.map_congr_left
      intro j _
      simp only [Function.comp_apply, Prod.mk.injEq]
      constructor <;> omega

theorem innerLoop_dst_below {α : Type} (src : Nat → α) (n : Nat) (s : Cursor α) (k : Nat)
    (hk : k < s.outptr) : (innerLoop src n s).dst k = s.dst k := by
  induction n generalizing s with
  | zero => rfl
  | succ n ih =>
      rw [innerLoop, ih _ (by simp only; omega)]
      exact Function.update_noteq (by omega) _ _

theorem innerLoop_dst {α : Type} (src : Nat → α) (n : Nat) (s : Cursor α) (j : Nat)
    (hj : j < n) : (innerLoop src n s).dst (s.outptr + j) = src (s.ptr + 2 * j) := by
  induction n generalizing s j with
  | zero => omega
  | succ n ih =>
      rw [innerLoop]
      cases j with
      | zero =>
          rw [Nat.add_zero, innerLoop_dst_below _ _ _ _ (by simp only; omega)]
          simp
      | succ j =>
          have := ih { ptr := s.ptr + 2, outptr := s.outptr + 1,
                       dst := Function.update s.dst s.outptr (src s.ptr),
                       log := s.log ++ [(s.ptr, s.outptr)] } j (by omega)
          simp only at this
          have e1 : s.outptr + (j + 1) = s.outptr + 1 + j := by omega
          have e2 : s.ptr + 2 * (j + 1) = s.ptr + 2 + 2 * j := by omega
          rw [e1, e2]
          exact this

theorem outerLoop_ptr {α : Type} (src : Nat → α) (w outw n : Nat) (s : Cursor α) :
    (outerLoop src w outw n s).ptr = s.ptr + n * (2 * outw + w) := by
  induction n generalizing s with
  | zero => simp [outerLoop]
  | succ n ih =>
      rw [outerLoop]
      simp only [ih, innerLoop_ptr, Nat.succ_mul]
      omega

theorem outerLoop_outptr {α : Type} (src : Nat → α) (w outw n : Nat) (s : Cursor α) :
    (outerLoop src w outw n s).outptr = s.outptr + n * outw := by
  induction n generalizing s with
  | zero => simp [outerLoop]
  | succ n ih =>
      rw [outerLoop]
      simp only [ih, innerLoop_outptr, Nat.succ_mul]
      omega

theorem outerLoop_dst_below {α : Type} (src : Nat → α) (w outw n : Nat) (s : Cursor α)
    (k : Nat) (hk : k < s.outptr) : (outerLoop src w outw n s).dst k = s.dst k := by
  induction n generalizing s with
  | zero => rfl
  | succ n ih =>
      rw [outerLoop]
      rw [ih _ (by simp only [innerLoop_outptr]; omega)]
      exact innerLoop_dst_below src outw s k hk

theorem outerLoop_dst {α : Type} (src : Nat → α) (w outw n : Nat) (s : Cursor α)
    (i j : Nat) (hi : i < n) (hj : j < outw) :
    (outerLoop src w outw n s).dst (s.outptr + i * outw + j)
      = src (s.ptr + i * (2 * outw + w) + 2 * j) := by
  induction n generalizing s i with
  | zero => omega
  | succ n ih =>
      rw [outerLoop]
      cases i with
      | zero =>
          rw [outerLoop_dst_below _ _ _ _ _ _ (by simp only [innerLoop_outptr]; omega)]
          simpa using innerLoop_dst src outw s j hj
      | succ i =>
          have := ih { innerLoop src outw s with ptr := (innerLoop src outw s).ptr + w } i
            (by omega)
          simp only [innerLoop_outptr, innerLoop_ptr] at this
          have e1 : s.outptr + (i + 1) * outw + j = s.outptr + outw + i * outw + j := by
            rw [Nat.succ_mul]; omega
          have e2 : s.ptr + (i + 1) * (2 * outw + w) + 2 * j
              = s.ptr + 2 * outw + w + i * (2 * outw + w) + 2 * j := by
            rw [Nat.succ_mul]; omega
          rw [e1, e2]
          simpa only [innerLoop_outptr, innerLoop_ptr] using this

theorem outerLoop_log {α : Type} (src : Nat → α) (w outw n : Nat) (s : Cursor α)
    (a : Nat × Nat) :
    a ∈ (outerLoop src w outw n s).log ↔
      a ∈ s.log ∨ ∃ i, i < n ∧ ∃ j, j < outw ∧
        a = (s.ptr + i * (2 * outw + w) + 2 * j, s.outptr + i * outw + j) := by
  induction n generalizing s with
  | zero => simp [outerLoop]
  | succ n ih =>
      rw [outerLoop]
      rw [ih]
      simp only [innerLoop_log, innerLoop_ptr, innerLoop_outptr, List.mem_append, List.mem_map,
        List.mem_range]
      constructor
      · rintro ((h | ⟨j, hj, rfl⟩) | ⟨i, hi, j, hj, rfl⟩)
        · exact Or.inl h
        · exact Or.inr ⟨0, by omega, j, hj, by simp⟩
        · refine Or.inr ⟨i + 1, by omega, j, hj, ?_⟩
          simp only [Prod.mk.injEq, Nat.succ_mul]
          constructor <;> omega
      · rintro (h | ⟨i, hi, j, hj, rfl⟩)
        · exact Or.inl (Or.inl h)
        · cases i with
          | zero => exact Or.inl (Or.inr ⟨j, hj, by simp⟩)
          | succ i =>
              refine Or.inr ⟨i, by omega, j, hj, ?_⟩
              simp only [Prod.mk.injEq, Nat.succ_mul]
              constructor <;> omega

theorem channelLoop_data_outside {α : Type} (bottom_blob : Mat α) (channels outw outh n p0 : Nat)
    (t : Top α) (p : Nat) (hp : p < p0 ∨ p0 + n ≤ p) :
    (channelLoop bottom_blob channels outw outh n p0 t).data p = t.data p := by
  induction n generalizing p0 t with
  | zero => rfl
  | succ n ih =>
      rw [channelLoop, ih _ _ (by omega)]
      exact Function.update_noteq (by omega) _ _

theorem channelLoop_data {α : Type} (bottom_blob : Mat α) (channels outw outh n p0 : Nat)
    (t : Top α) (p : Nat) (h0 : p0 ≤ p) (h1 : p < p0 + n) :
    (channelLoop bottom_blob channels outw outh n p0 t).data p
      = (channelBody bottom_blob channels outw outh p (t.data p)).dst := by
  induction n generalizing p0 t with
  | zero => omega
  | succ n ih =>
      rw [channelLoop]
      by_cases hp : p = p0
      · subst hp
        rw [channelLoop_data_outside _ _ _ _ _ _ _ _ (by omega)]
        simp
      · rw [ih _ _ (by omega) (by omega)]
        simp only
        rw [Function.update_noteq hp]

theorem channelBody_log {α : Type} (bottom_blob : Mat α) (channels outw outh p : Nat)
    (plane : Nat → α) (a : Nat × Nat) :
    a ∈ (channelBody bottom_blob channels outw outh p plane).log ↔
      ∃ i, i < outh ∧ ∃ j, j < outw ∧
        a = (bottom_blob.w * ((p / channels) % 2) + (p / channels) / 2
              + i * (2 * outw + bottom_blob.w) + 2 * j, i * outw + j) := by
  unfold channelBody
  rw [outerLoop_log]
  simp [Mat.row]

theorem channelLoop_trace {α : Type} (bottom_blob : Mat α) (channels outw outh n p0 : Nat)
    (t : Top α) (a : Copy) :
    a ∈ (channelLoop bottom_blob channels outw outh n p0 t).trace ↔
      a ∈ t.trace ∨ ∃ p, p0 ≤ p ∧ p < p0 + n ∧ ∃ i, i < outh ∧ ∃ j, j < outw ∧
        a = ⟨p % channels,
             bottom_blob.w * ((p / channels) % 2) + (p / channels) / 2
               + i * (2 * outw + bottom_blob.w) + 2 * j,
             p, i * outw + j⟩ := by
  induction n generalizing p0 t with
  | zero =>
      simp only [channelLoop, Nat.add_zero]
      constructor
      · exact Or.inl
      · rintro (h | ⟨p, hp0, hp1, _⟩)
        · exact h
        · omega
  | succ n ih =>
      rw [channelLoop, ih]
      simp only [List.mem_append, List.mem_map, channelBody_log]
      constructor
      · rintro ((h | ⟨b, ⟨i, hi, j, hj, rfl⟩, rfl⟩) | ⟨p, hp0, hp1, i, hi, j, hj, rfl⟩)
        · exact Or.inl h
        · exact Or.inr ⟨p0, le_refl _, by omega, i, hi, j, hj, rfl⟩
        · exact Or.inr ⟨p, by omega, by omega, i, hi, j, hj, rfl⟩
      · rintro (h | ⟨p, hp0, hp1, i, hi, j, hj, rfl⟩)
        · exact Or.inl (Or.inl h)
        · by_cases hp : p = p0
          · subst hp
            exact Or.inl (Or.inr ⟨_, ⟨i, hi, j, hj, rfl⟩, rfl⟩)
          · exact Or.inr ⟨p, by omega, by omega, i, hi, j, hj, rfl⟩

/-- The offsets of the walk stay inside a `w`-by-`h` plane: with a start of at
most `w + 1`, row `i` of the `h / 2` rows and column `j` of the `w / 2`
columns, the read cursor is below `w * h`. -/
theorem read_offset_lt (w h r k i j : Nat) (hr : r ≤ 1) (hk : k ≤ 1) (hi : i < h / 2)
    (hj : j < w / 2) : w * r + k + i * (2 * (w / 2) + w) + 2 * j < w * h := by
  have h1 : w * r ≤ w := by simpa using Nat.mul_le_mul_left w hr
  have h2 : (i + 1) * (2 * (w / 2) + w) ≤ (h / 2) * (2 * (w / 2) + w) :=
    Nat.mul_le_mul_right _ hi
  have h3 : (h / 2) * (2 * (w / 2) + w) ≤ (h / 2) * (2 * w) :=
    Nat.mul_le_mul_left _ (by omega)
  have h4 : (h / 2) * (2 * w) = w * (2 * (h / 2)) := by ring
  have h5 : w * (2 * (h / 2)) ≤ w * h := Nat.mul_le_mul_left w (by omega)
  rw [Nat.succ_mul] at h2
  omega

theorem write_offset_lt (outw outh i j : Nat) (hi : i < outh) (hj : j < outw) :
    i * outw + j < outw * outh := by
  have h1 : (i + 1) * outw ≤ outh * outw := Nat.mul_le_mul_right _ hi
  rw [Nat.succ_mul] at h1
  rw [Nat.mul_comm outw outh]
  omega

/-- C1. For an input with at least one channel and even width and height, when
the output tensor is not empty after its creation, `forward` returns 0 and
produces a tensor of width `w / 2`, height `h / 2` and `4 * c` channels whose
element at channel `p`, row `i`, column `j` is the input element at channel
`p % c`, row `2 * i + (p / c) % 2`, column `2 * j + (p / c) / 2`. -/
theorem forward_space_to_depth {α : Type} (bottom_blob : Mat α) (topEmpty : Bool)
    (fresh : Nat → Nat → α) (_hc : 1 ≤ bottom_blob.c) (hw : bottom_blob.w % 2 = 0)
    (_hh : bottom_blob.h % 2 = 0) (halloc : topEmpty = false) :
    (forward bottom_blob topEmpty fresh).ret = 0 ∧
    (forward bottom_blob topEmpty fresh).top_blob.w = bottom_blob.w / 2 ∧
    (forward bottom_blob topEmpty fresh).top_blob.h = bottom_blob.h / 2 ∧
    (forward bottom_blob topEmpty fresh).top_blob.c = 4 * bottom_blob.c ∧
    ∀ p i j, p < 4 * bottom_blob.c → i < bottom_blob.h / 2 → j < bottom_blob.w / 2 →
      (forward bottom_blob topEmpty fresh).top_blob.elem p i j
        = bottom_blob.elem (p % bottom_blob.c) (2 * i + (p / bottom_blob.c) % 2)
            (2 * j + (p / bottom_blob.c) / 2) := by
  subst halloc
  refine ⟨rfl, rfl, rfl, Nat.mul_comm _ _, ?_⟩
  intro p i j hp hi hj
  have hdata : (forward bottom_blob false fresh).top_blob.data p
      = (channelBody bottom_blob bottom_blob.c (bottom_blob.w / 2) (bottom_blob.h / 2) p
          (fresh p)).dst := by
    simp only [forward, Bool.false_eq_true, if_false]
    exact channelLoop_data _ _ _ _ _ _ _ _ (Nat.zero_le _) (by omega)
  have hwalk := outerLoop_dst (bottom_blob.data (p % bottom_blob.c)) bottom_blob.w
    (bottom_blob.w / 2) (bottom_blob.h / 2)
    { ptr := bottom_blob.row ((p / bottom_blob.c) % 2) + (p / bottom_blob.c) / 2
      outptr := 0, dst := fresh p, log := [] } i j hi hj
  simp only [Nat.zero_add] at hwalk
  have hrow : (forward bottom_blob false fresh).top_blob.row i = i * (bottom_blob.w / 2) := by
    simp only [Mat.row, forward, Bool.false_eq_true, if_false]
    exact Nat.mul_comm _ _
  have htwo : 2 * (bottom_blob.w / 2) = bottom_blob.w := by omega
  unfold Mat.elem
  rw [hdata, hrow]
  unfold channelBody
  rw [hwalk]
  congr 1
  simp only [Mat.row, htwo]
  ring

/-- Witness of C1: the 8 by 8 input with 2 channels. -/
theorem forward_space_to_depth_witness :
    (forward sampleBlob false (fun _ _ => 0)).ret = 0 ∧
    (forward sampleBlob false (fun _ _ => 0)).top_blob.w = 4 ∧
    (forward sampleBlob false (fun _ _ => 0)).top_blob.h = 4 ∧
    (forward sampleBlob false (fun _ _ => 0)).top_blob.c = 8 ∧
    ∀ p i j, p < 8 → i < 4 → j < 4 →
      (forward sampleBlob false (fun _ _ => 0)).top_blob.elem p i j
        = sampleBlob.elem (p % 2) (2 * i + (p / 2) % 2) (2 * j + (p / 2) / 2) :=
  forward_space_to_depth sampleBlob false (fun _ _ => 0) (by decide) (by decide) (by decide) rfl

/-- C10. For an input with at least one channel and any width and height,
every copy `forward` executes reads a channel below `c` at an offset below
`w * h` and writes a channel below `4 * c` at an offset below
`(w / 2) * (h / 2)`.  No read offset exceeds
`(w + 1) + (h / 2 - 1) * (2 * (w / 2) + w) + 2 * (w / 2 - 1)`, computed in the
integers; that value is below `w * h`, and it is read whenever the output has
at least one row and one column. -/
theorem forward_accesses_in_bounds {α : Type} (bottom_blob : Mat α) (topEmpty : Bool)
    (fresh : Nat → Nat → α) (hc : 1 ≤ bottom_blob.c) :
    (∀ a ∈ (forward bottom_blob topEmpty fresh).trace,
      a.srcChannel < bottom_blob.c ∧
      a.srcOffset < bottom_blob.w * bottom_blob.h ∧
      a.dstChannel < 4 * bottom_blob.c ∧
      a.dstOffset < (bottom_blob.w / 2) * (bottom_blob.h / 2) ∧
      (a.srcOffset : Int) ≤ ((bottom_blob.w : Int) + 1)
        + (((bottom_blob.h / 2 : Nat) : Int) - 1)
            * (2 * ((bottom_blob.w / 2 : Nat) : Int) + (bottom_blob.w : Int))
        + 2 * (((bottom_blob.w / 2 : Nat) : Int) - 1)) ∧
    ((bottom_blob.w : Int) + 1)
        + (((bottom_blob.h / 2 : Nat) : Int) - 1)
            * (2 * ((bottom_blob.w / 2 : Nat) : Int) + (bottom_blob.w : Int))
        + 2 * (((bottom_blob.w / 2 : Nat) : Int) - 1)
      < (bottom_blob.w : Int) * (bottom_blob.h : Int) ∧
    (topEmpty = false → 1 ≤ bottom_blob.w / 2 → 1 ≤ bottom_blob.h / 2 →
      ∃ a ∈ (forward bottom_blob topEmpty fresh).trace,
        (a.srcOffset : Int) = ((bottom_blob.w : Int) + 1)
          + (((bottom_blob.h / 2 : Nat) : Int) - 1)
              * (2 * ((bottom_blob.w / 2 : Nat) : Int) + (bottom_blob.w : Int))
          + 2 * (((bottom_blob.w / 2 : Nat) : Int) - 1)) := by
  obtain ⟨w, h, c, data⟩ := bottom_blob
  simp only at hc ⊢
  have hmem : ∀ a, a ∈ (forward (⟨w, h, c, data⟩ : Mat α) topEmpty fresh).trace ↔
      topEmpty = false ∧ ∃ p, p < c * 4 ∧ ∃ i, i < h / 2 ∧ ∃ j, j < w / 2 ∧
        a = ⟨p % c, w * ((p / c) % 2) + (p / c) / 2 + i * (2 * (w / 2) + w) + 2 * j,
             p, i * (w / 2) + j⟩ := by
    intro a
    cases topEmpty with
    | true => simp [forward]
    | false =>
        simp only [forward, Bool.false_eq_true, if_false, channelLoop_trace, List.not_mem_nil,
          false_or, Nat.zero_le, true_and, Nat.zero_add]
  refine ⟨?_, ?_, ?_⟩
  · intro a ha
    obtain ⟨_, p, hp, i, hi, j, hj, rfl⟩ := (hmem a).1 ha
    have hq : p / c < 4 := (Nat.div_lt_iff_lt_mul (by omega)).2 (by omega)
    have hr : (p / c) % 2 ≤ 1 := by omega
    have hk : (p / c) / 2 ≤ 1 := by omega
    refine ⟨Nat.mod_lt _ (by omega), read_offset_lt w h _ _ i j hr hk hi hj, ?_,
      write_offset_lt _ _ i j hi hj, ?_⟩
    · show p < 4 * c
      omega
    simp only
    have h1 : w * ((p / c) % 2) ≤ w := by simpa using Nat.mul_le_mul_left w hr
    have h2 : i * (2 * (w / 2) + w) ≤ (h / 2 - 1) * (2 * (w / 2) + w) :=
      Nat.mul_le_mul_right _ (by omega)
    have e1 : (((h / 2 : Nat) : Int) - 1) = ((h / 2 - 1 : Nat) : Int) := by omega
    have e2 : (((h / 2 : Nat) : Int) - 1) * (2 * ((w / 2 : Nat) : Int) + (w : Int))
        = (((h / 2 - 1) * (2 * (w / 2) + w) : Nat) : Int) := by
      rw [e1]; push_cast; ring
    rw [e2]
    omega
  · rcases Nat.eq_zero_or_pos (h / 2) with h0 | hpos
    · have hwh : (0 : Int) ≤ (w : Int) * (h : Int) := by positivity
      simp only [h0, Nat.cast_zero]
      linarith
    · have e1 : (((h / 2 : Nat) : Int) - 1) = ((h / 2 - 1 : Nat) : Int) := by omega
      have e2 : (((h / 2 : Nat) : Int) - 1) * (2 * ((w / 2 : Nat) : Int) + (w : Int))
          = (((h / 2 - 1) * (2 * (w / 2) + w) : Nat) : Int) := by
        rw [e1]; push_cast; ring
      have e3 : (w : Int) * (h : Int) = ((w * h : Nat) : Int) := by push_cast; ring
      rw [e2, e3]
      have h2 : (h / 2 - 1 + 1) * (2 * (w / 2) + w) ≤ (h / 2) * (2 * w) :=
        Nat.mul_le_mul (by omega) (by omega)
      have h4 : (h / 2) * (2 * w) = w * (2 * (h / 2)) := by ring
      have h5 : w * (2 * (h / 2)) ≤ w * h := Nat.mul_le_mul_left w (by omega)
      rw [Nat.succ_mul] at h2
      omega
  · intro hE hw1 hh1
    refine ⟨⟨(4 * c - 1) % c, w * (((4 * c - 1) / c) % 2) + ((4 * c - 1) / c) / 2
        + (h / 2 - 1) * (2 * (w / 2) + w) + 2 * (w / 2 - 1), 4 * c - 1,
        (h / 2 - 1) * (w / 2) + (w / 2 - 1)⟩, ?_, ?_⟩
    · exact (hmem _).2 ⟨hE, 4 * c - 1, by omega, h / 2 - 1, by omega, w / 2 - 1, by omega, rfl⟩
    · simp only
      have hq : (4 * c - 1) / c = 3 := by
        apply Nat.div_eq_of_lt_le
        · rw [Nat.mul_comm]; omega
        · rw [Nat.mul_comm]; omega
      rw [hq]
      have e1 : (((h / 2 : Nat) : Int) - 1) = ((h / 2 - 1 : Nat) : Int) := by omega
      have e2 : (((h / 2 : Nat) : Int) - 1) * (2 * ((w / 2 : Nat) : Int) + (w : Int))
          = (((h / 2 - 1) * (2 * (w / 2) + w) : Nat) : Int) := by
        rw [e1]; push_cast; ring
      rw [e2]
      omega

/-- Witness of C10: width 5 and height 7, both odd, with 3 channels. -/
theorem forward_accesses_in_bounds_witness :
    (∀ a ∈ (forward ({ w := 5, h := 7, c := 3, data := fun _ _ => 0 } : Mat Nat) false
        (fun _ _ => 0)).trace,
      a.srcChannel < 3 ∧ a.srcOffset < 35 ∧ a.dstChannel < 12 ∧ a.dstOffset < 6 ∧
        (a.srcOffset : Int) ≤ 26) ∧
    (26 : Int) < 35 ∧
    ∃ a ∈ (forward ({ w := 5, h := 7, c := 3, data := fun _ _ => 0 } : Mat Nat) false
        (fun _ _ => 0)).trace, (a.srcOffset : Int) = 26 := by
  have key := forward_accesses_in_bounds
    ({ w := 5, h := 7, c := 3, data := fun _ _ => 0 } : Mat Nat) false (fun _ _ => 0)
    (by decide)
  refine ⟨?_, by decide, ?_⟩
  · intro a ha
    have := key.1 a ha
    simpa using this
  · obtain ⟨a, ha, hval⟩ := key.2.2 rfl (by decide) (by decide)
    exact ⟨a, ha, by simpa using hval⟩

end YoloXFocus

/-! ## Facts about the measurement loops -/

namespace BenchmarkNet

theorem times_succ (env : Nat → Evaluation) (k n : Nat) :
    times env k (n + 1) = (env k).elapsed :: times env (k + 1) n := by
  unfold times
  rw [List.range_succ_eq_map]
  simp only [List.map_cons, List.map_map, Nat.add_zero, List.cons.injEq, true_and]
  apply List.map_congr_left
  intro i _
  simp only [Function.comp_apply]
  congr 2
  omega

theorem length_times (env : Nat → Evaluation) (k n : Nat) : (times env k n).length = n := by
  simp [times]

theorem mem_times (env : Nat → Evaluation) (k n : Nat) (x : ℚ) :
    x ∈ times env k n ↔ ∃ i, i < n ∧ (env (k + i)).elapsed = x := by
  simp [times]

theorem warmupLoop_eq (env : Nat → Evaluation) (n : Nat) (s : State) :
    (warmupLoop env n s).calls = s.calls + n ∧
    (warmupLoop env n s).time_min = s.time_min ∧
    (warmupLoop env n s).time_max = s.time_max ∧
    (warmupLoop env n s).time_avg = s.time_avg := by
  induction n generalizing s with
  | zero => exact ⟨rfl, rfl, rfl, rfl⟩
  | succ n ih =>
      rw [warmupLoop]
      obtain ⟨h1, h2, h3, h4⟩ := ih (evaluate env s)
      refine ⟨?_, h2, h3, h4⟩
      rw [h1]
      simp only [evaluate]
      omega

theorem timedLoop_eq (env : Nat → Evaluation) (n : Nat) (s : State) :
    (timedLoop env n s).calls = s.calls + n ∧
    (timedLoop env n s).time_min = (times env s.calls n).foldl min s.time_min ∧
    (timedLoop env n s).time_max = (times env s.calls n).foldl max s.time_max ∧
    (timedLoop env n s).time_avg = s.time_avg + (times env s.calls n).sum := by
  induction n generalizing s with
  | zero => simp [timedLoop, times]
  | succ n ih =>
      rw [timedLoop, times_succ]
      simp only [evaluate, add_sub_cancel_left, List.foldl_cons, List.sum_cons]
      obtain ⟨h1, h2, h3, h4⟩ := ih
        { clock := s.clock + (env s.calls).elapsed, calls := s.calls + 1,
          time_min := min s.time_min (env s.calls).elapsed,
          time_max := max s.time_max (env s.calls).elapsed,
          time_avg := s.time_avg + (env s.calls).elapsed }
      refine ⟨?_, h2, h3, ?_⟩
      · rw [h1]; simp only; omega
      · rw [h4]; simp only; ring

/-- Closed form of `run`: it performs `4 + loops` evaluations and folds the
elapsed times of those after the fourth. -/
theorem run_eq (loops : Int) (env : Nat → Evaluation) (clock0 : ℚ) :
    (run loops env clock0).ret = 0 ∧
    (run loops env clock0).calls = 4 + loops.toNat ∧
    (run loops env clock0).time_min = (times env 4 loops.toNat).foldl min DBL_MAX ∧
    (run loops env clock0).time_max = (times env 4 loops.toNat).foldl max (-DBL_MAX) ∧
    (run loops env clock0).time_avg = (times env 4 loops.toNat).sum / (loops : ℚ) := by
  have hw := warmupLoop_eq env 4
    { clock := clock0, calls := 0, time_min := DBL_MAX, time_max := -DBL_MAX, time_avg := 0 }
  have ht := timedLoop_eq env loops.toNat (warmupLoop env 4
    { clock := clock0, calls := 0, time_min := DBL_MAX, time_max := -DBL_MAX, time_avg := 0 })
  simp only [Nat.zero_add] at hw
  rw [hw.1, hw.2.1, hw.2.2.1, hw.2.2.2] at ht
  refine ⟨rfl, ht.1, ht.2.1, ht.2.2.1, ?_⟩
  show (timedLoop env loops.toNat _).time_avg / (loops : ℚ) = _
  rw [ht.2.2.2, zero_add]

theorem foldl_min_le (l : List ℚ) (a : ℚ) :
    l.foldl min a ≤ a ∧ ∀ x ∈ l, l.foldl min a ≤ x := by
  induction l generalizing a with
  | nil => simp
  | cons y l ih =>
      simp only [List.foldl_cons, List.mem_cons, forall_eq_or_imp]
      obtain ⟨h1, h2⟩ := ih (min a y)
      exact ⟨le_trans h1 (min_le_left _ _), le_trans h1 (min_le_right _ _), h2⟩

theorem le_foldl_max (l : List ℚ) (a : ℚ) :
    a ≤ l.foldl max a ∧ ∀ x ∈ l, x ≤ l.foldl max a := by
  induction l generalizing a with
  | nil => simp
  | cons y l ih =>
      simp only [List.foldl_cons, List.mem_cons, forall_eq_or_imp]
      obtain ⟨h1, h2⟩ := ih (max a y)
      exact ⟨le_trans (le_max_left _ _) h1, le_trans (le_max_right _ _) h1, h2⟩

/-- C2. For a loop count of at least 1 and any elapsed times, `run` reports as
`time_min` and `time_max` the running minimum and maximum of the elapsed times
of the measured evaluations, started from `DBL_MAX` and `-DBL_MAX`, and as
`time_avg` their sum divided by `loops`; every measured time lies between
`time_min` and `time_max`, and `time_min ≤ time_avg ≤ time_max`. -/
theorem run_min_le_avg_le_max (loops : Int) (env : Nat → Evaluation) (clock0 : ℚ)
    (hloops : 1 ≤ loops) :
    (run loops env clock0).time_min = (times env 4 loops.toNat).foldl min DBL_MAX ∧
    (run loops env clock0).time_max = (times env 4 loops.toNat).foldl max (-DBL_MAX) ∧
    (run loops env clock0).time_avg = (times env 4 loops.toNat).sum / (loops : ℚ) ∧
    (∀ k : Nat, (k : Int) < loops →
      (run loops env clock0).time_min ≤ (env (4 + k)).elapsed ∧
      (env (4 + k)).elapsed ≤ (run loops env clock0).time_max) ∧
    (run loops env clock0).time_min ≤ (run loops env clock0).time_avg ∧
    (run loops env clock0).time_avg ≤ (run loops env clock0).time_max := by
  obtain ⟨_, _, hmin, hmax, havg⟩ := run_eq loops env clock0
  refine ⟨hmin, hmax, havg, ?_, ?_⟩
  · intro k hk
    have hmem : (env (4 + k)).elapsed ∈ times env 4 loops.toNat :=
      (mem_times env 4 loops.toNat _).2 ⟨k, by omega, rfl⟩
    rw [hmin, hmax]
    exact ⟨(foldl_min_le _ _).2 _ hmem, (le_foldl_max _ _).2 _ hmem⟩
  rw [hmin, hmax, havg]
  have hpos : (0 : ℚ) < (loops : ℚ) := by exact_mod_cast (by omega : (0 : Int) < loops)
  have hlen : (((times env 4 loops.toNat).length : Nat) : ℚ) = (loops : ℚ) := by
    rw [length_times]
    have : ((loops.toNat : Nat) : Int) = loops := Int.toNat_of_nonneg (by omega)
    exact_mod_cast this
  have hlo := List.card_nsmul_le_sum (times env 4 loops.toNat)
    ((times env 4 loops.toNat).foldl min DBL_MAX) (foldl_min_le _ _).2
  have hhi := List.sum_le_card_nsmul (times env 4 loops.toNat)
    ((times env 4 loops.toNat).foldl max (-DBL_MAX)) (le_foldl_max _ _).2
  rw [nsmul_eq_mul, hlen] at hlo hhi
  constructor
  · rw [le_div_iff₀ hpos]
    linarith
  · rw [div_le_iff₀ hpos]
    linarith

/-- Witness of C2: three measured evaluations of 4, 5 and 6 ms after warm-up
evaluations of 0, 1, 2 and 3 ms give the minimum 4, the maximum 6 and the
average 5. -/
theorem run_min_le_avg_le_max_witness :
    (1 : Int) ≤ 3 ∧
    (run 3 ramp 0).time_min = 4 ∧
    (run 3 ramp 0).time_max = 6 ∧
    (run 3 ramp 0).time_avg = 5 ∧
    (run 3 ramp 0).time_min ≤ (run 3 ramp 0).time_avg ∧
    (run 3 ramp 0).time_avg ≤ (run 3 ramp 0).time_max := by
  obtain ⟨hmin, hmax, havg, _, hle1, hle2⟩ := run_min_le_avg_le_max 3 ramp 0 (by decide)
  have ht : times ramp 4 (3 : Int).toNat = [4, 5, 6] := by
    show times ramp 4 3 = [4, 5, 6]
    simp only [times, ramp, List.range_succ, List.range_zero, List.nil_append,
      List.map_append, List.map_cons, List.map_nil, List.cons_append]
    norm_num
  rw [ht] at hmin hmax havg
  have hbig : (4 : ℚ) ≤ DBL_MAX := by unfold DBL_MAX; norm_num
  have hsmall : -DBL_MAX ≤ (4 : ℚ) := by unfold DBL_MAX; norm_num
  refine ⟨by decide, ?_, ?_, ?_, hle1, hle2⟩
  · rw [hmin]
    simp only [List.foldl_cons, List.foldl_nil, min_eq_right hbig]
    norm_num
  · rw [hmax]
    simp only [List.foldl_cons, List.foldl_nil, max_eq_right hsmall]
    norm_num
  · rw [havg]
    norm_num

/-- C7. For a loop count of at least 1, `run` performs `4 + loops` graph
evaluations, and its minimum, maximum and sum are those of the elapsed times
of the `loops` evaluations that follow the first four: the four warm-up
evaluations do not enter them. -/
theorem run_evaluation_count (loops : Int) (env : Nat → Evaluation) (clock0 : ℚ)
    (hloops : 1 ≤ loops) :
    ((run loops env clock0).calls : Int) = 4 + loops ∧
    (times env 4 loops.toNat).length = loops.toNat ∧
    (run loops env clock0).time_min = (times env 4 loops.toNat).foldl min DBL_MAX ∧
    (run loops env clock0).time_max = (times env 4 loops.toNat).foldl max (-DBL_MAX) ∧
    (run loops env clock0).time_avg = (times env 4 loops.toNat).sum / (loops : ℚ) := by
  obtain ⟨_, hcalls, hmin, hmax, havg⟩ := run_eq loops env clock0
  refine ⟨?_, length_times _ _ _, hmin, hmax, havg⟩
  rw [hcalls]
  push_cast
  rw [Int.toNat_of_nonneg (by omega)]

/-- Witness of C7: 5 evaluations for 1 loop and 9 evaluations for 5 loops. -/
theorem run_evaluation_count_witness :
    ((run 1 (steady 5) 0).calls : Int) = 5 ∧ ((run 5 (steady 5) 0).calls : Int) = 9 :=
  ⟨(run_evaluation_count 1 (steady 5) 0 (by decide)).1,
   (run_evaluation_count 5 (steady 5) 0 (by decide)).1⟩

theorem foldl_min_const (l : List ℚ) (a d : ℚ) (h : ∀ x ∈ l, x = d) (hne : l ≠ [])
    (ha : d ≤ a) : l.foldl min a = d := by
  induction l generalizing a with
  | nil => exact absurd rfl hne
  | cons y l ih =>
      have hy : y = d := h y (List.mem_cons_self _ _)
      subst hy
      simp only [List.foldl_cons, min_eq_right ha]
      cases l with
      | nil => rfl
      | cons z l =>
          exact ih y (fun x hx => h x (List.mem_cons_of_mem _ hx)) (List.cons_ne_nil _ _)
            (le_refl _)

theorem foldl_max_const (l : List ℚ) (a d : ℚ) (h : ∀ x ∈ l, x = d) (hne : l ≠ [])
    (ha : a ≤ d) : l.foldl max a = d := by
  induction l generalizing a with
  | nil => exact absurd rfl hne
  | cons y l ih =>
      have hy : y = d := h y (List.mem_cons_self _ _)
      subst hy
      simp only [List.foldl_cons, max_eq_right ha]
      cases l with
      | nil => rfl
      | cons z l =>
          exact ih y (fun x hx => h x (List.mem_cons_of_mem _ hx)) (List.cons_ne_nil _ _)
            (le_refl _)

theorem sum_const (l : List ℚ) (d : ℚ) (h : ∀ x ∈ l, x = d) : l.sum = (l.length : ℚ) * d := by
  induction l with
  | nil => simp
  | cons y l ih =>
      rw [List.sum_cons, ih (fun x hx => h x (List.mem_cons_of_mem _ hx)),
        h y (List.mem_cons_self _ _), List.length_cons]
      push_cast
      ring

/-- C8. For a loop count of at least 1, when every measured evaluation takes
the same time `d`, a value in the range of the finite doubles, `run` reports
`time_min = time_max = time_avg = d`; and when every evaluation takes the time
`d`, the average for 1 loop equals the average for 5 loops. -/
theorem run_constant_time (loops : Int) (env : Nat → Evaluation) (clock0 d : ℚ)
    (hloops : 1 ≤ loops) (hlo : -DBL_MAX ≤ d) (hhi : d ≤ DBL_MAX)
    (hsame : ∀ k : Nat, 4 ≤ k → (k : Int) < 4 + loops → (env k).elapsed = d) :
    (run loops env clock0).time_min = d ∧
    (run loops env clock0).time_max = d ∧
    (run loops env clock0).time_avg = d ∧
    ((∀ k : Nat, (env k).elapsed = d) →
      (run 1 env clock0).time_avg = (run 5 env clock0).time_avg) := by
  have hconst : ∀ (n : Int), 1 ≤ n → (∀ k : Nat, 4 ≤ k → (k : Int) < 4 + n → (env k).elapsed = d) →
      (run n env clock0).time_min = d ∧ (run n env clock0).time_max = d ∧
      (run n env clock0).time_avg = d := by
    intro n hn hs
    obtain ⟨_, _, hmin, hmax, havg⟩ := run_eq n env clock0
    have hall : ∀ x ∈ times env 4 n.toNat, x = d := by
      intro x hx
      obtain ⟨i, hi, rfl⟩ := (mem_times env 4 n.toNat x).1 hx
      exact hs (4 + i) (by omega) (by push_cast; omega)
    have hne : times env 4 n.toNat ≠ [] := by
      intro h0
      have := length_times env 4 n.toNat
      rw [h0] at this
      simp only [List.length_nil] at this
      omega
    have hpos : (n : ℚ) ≠ 0 := by
      have : (0 : ℚ) < (n : ℚ) := by exact_mod_cast (by omega : (0 : Int) < n)
      exact ne_of_gt this
    have hlen : (((times env 4 n.toNat).length : Nat) : ℚ) = (n : ℚ) := by
      rw [length_times]
      have : ((n.toNat : Nat) : Int) = n := Int.toNat_of_nonneg (by omega)
      exact_mod_cast this
    refine ⟨?_, ?_, ?_⟩
    · rw [hmin]; exact foldl_min_const _ _ _ hall hne hhi
    · rw [hmax]; exact foldl_max_const _ _ _ hall hne hlo
    · rw [havg, sum_const _ _ hall, hlen]
      field_simp
  obtain ⟨h1, h2, h3⟩ := hconst loops hloops hsame
  refine ⟨h1, h2, h3, ?_⟩
  intro hall
  rw [(hconst 1 (by decide) (fun k _ _ => hall k)).2.2,
    (hconst 5 (by decide) (fun k _ _ => hall k)).2.2]

/-- Witness of C8: a single loop whose evaluation takes 5 ms. -/
theorem run_constant_time_witness :
    (run 1 (steady 5) 0).time_min = 5 ∧
    (run 1 (steady 5) 0).time_max = 5 ∧
    (run 1 (steady 5) 0).time_avg = 5 ∧
    (run 1 (steady 5) 0).time_avg = (run 5 (steady 5) 0).time_avg := by
  have hmax : (5 : ℚ) ≤ DBL_MAX := by unfold DBL_MAX; norm_num
  have hmin : -DBL_MAX ≤ (5 : ℚ) := by unfold DBL_MAX; norm_num
  obtain ⟨h1, h2, h3, h4⟩ := run_constant_time 1 (steady 5) 0 5 (by decide) hmin hmax
    (fun _ _ _ => rfl)
  exact ⟨h1, h2, h3, h4 (fun _ => rfl)⟩

end BenchmarkNet

/-! ## Facts about `Run` -/

/-- `run` returns 0 whatever the evaluations report. -/
theorem BenchmarkNet.run_ret (loops : Int) (env : Nat → BenchmarkNet.Evaluation) (clock0 : ℚ) :
    (BenchmarkNet.run loops env clock0).ret = 0 := rfl

/-- `Run` never reports the status 3. -/
theorem Run_retcode_ne_three (host : Host) (a : Args) :
    (Java_com_tencent_benchmarkncnn_BenchmarkNcnn_Run host a).obj.retcode ≠ 3 := by
  unfold Java_com_tencent_benchmarkncnn_BenchmarkNcnn_Run
  split_ifs <;> simp_all [BenchmarkNet.run_ret]

/-- C3, at the failing input: with every graph evaluation reporting -100 and
one loop, `run` performs all 5 evaluations and returns 0, and `Run` reports the
status 0. -/
theorem run_discards_evaluation_status :
    (∀ k, (failingEnv k).status = -100) ∧
    (BenchmarkNet.run 1 failingEnv 0).ret = 0 ∧
    (BenchmarkNet.run 1 failingEnv 0).calls = 5 ∧
    (Java_com_tencent_benchmarkncnn_BenchmarkNcnn_Run hostFailing sampleArgs).obj.retcode = 0 ∧
    (Java_com_tencent_benchmarkncnn_BenchmarkNcnn_Run hostFailing sampleArgs).evaluations = 5 :=
  ⟨fun _ => rfl, rfl, rfl, rfl, rfl⟩

/-- C4, counterexample: with the model index 2, use-GPU set and no compute
device, the status is 1 and not 2. -/
theorem Run_unknown_model_counterexample :
    ({ sampleArgs with gpu := true, model := 2 } : Args).model ≥ 2 ∧
    (Java_com_tencent_benchmarkncnn_BenchmarkNcnn_Run hostNoGpu
      { sampleArgs with gpu := true, model := 2 }).obj.retcode = 1 ∧
    ¬ (Java_com_tencent_benchmarkncnn_BenchmarkNcnn_Run hostNoGpu
      { sampleArgs with gpu := true, model := 2 }).obj.retcode = 2 := by
  refine ⟨by decide, rfl, by decide⟩

/-- C4, amended. For a model index outside the table, `Run` reports the
status 2, unless use-GPU is set while the host has no compute device, where it
reports 1; in both cases it creates no allocator and no engine and performs no
evaluation. -/
theorem Run_unknown_model (host : Host) (a : Args) (hmodel : a.model < 0 ∨ 2 ≤ a.model) :
    (Java_com_tencent_benchmarkncnn_BenchmarkNcnn_Run host a).obj.retcode
      = (if a.gpu = true ∧ host.gpu_count = 0 then 1 else 2) ∧
    (Java_com_tencent_benchmarkncnn_BenchmarkNcnn_Run host a).events = [] ∧
    (Java_com_tencent_benchmarkncnn_BenchmarkNcnn_Run host a).evaluations = 0 := by
  have hguard : a.model < 0 ∨ a.model ≥ (g_models.length : Int) := by
    simpa [g_models] using hmodel
  unfold Java_com_tencent_benchmarkncnn_BenchmarkNcnn_Run
  by_cases hgpu : a.gpu = true ∧ host.gpu_count = 0
  · rw [if_pos hgpu, if_pos hgpu]
    exact ⟨rfl, rfl, rfl⟩
  · rw [if_neg hgpu, if_pos hguard, if_neg hgpu]
    exact ⟨rfl, rfl, rfl⟩

/-- Witness of the amended C4: the model index 7 on a host without GPU. -/
theorem Run_unknown_model_witness :
    (Java_com_tencent_benchmarkncnn_BenchmarkNcnn_Run hostNoGpu
      { sampleArgs with model := 7 }).obj.retcode = 2 ∧
    (Java_com_tencent_benchmarkncnn_BenchmarkNcnn_Run hostNoGpu
      { sampleArgs with model := 7 }).events = [] ∧
    (Java_com_tencent_benchmarkncnn_BenchmarkNcnn_Run hostNoGpu
      { sampleArgs with model := 7 }).evaluations = 0 :=
  Run_unknown_model hostNoGpu { sampleArgs with model := 7 } (Or.inr (by decide))

/-- C5. With use-GPU set on a host that reports no compute device, `Run`
reports the status 1 whatever its other inputs, and creates no allocator and
no engine and performs no evaluation. -/
theorem Run_gpu_unavailable (host : Host) (a : Args) (hgpu : a.gpu = true)
    (hcount : host.gpu_count = 0) :
    (Java_com_tencent_benchmarkncnn_BenchmarkNcnn_Run host a).obj.retcode = 1 ∧
    (Java_com_tencent_benchmarkncnn_BenchmarkNcnn_Run host a).events = [] ∧
    (Java_com_tencent_benchmarkncnn_BenchmarkNcnn_Run host a).evaluations = 0 := by
  unfold Java_com_tencent_benchmarkncnn_BenchmarkNcnn_Run
  rw [if_pos ⟨hgpu, hcount⟩]
  exact ⟨rfl, rfl, rfl⟩

/-- Witness of C5: use-GPU with the memory pool and the model index 9, which
is outside the table. -/
theorem Run_gpu_unavailable_witness :
    (Java_com_tencent_benchmarkncnn_BenchmarkNcnn_Run hostNoGpu
      { sampleArgs with gpu := true, model := 9 }).obj.retcode = 1 ∧
    (Java_com_tencent_benchmarkncnn_BenchmarkNcnn_Run hostNoGpu
      { sampleArgs with gpu := true, model := 9 }).events = [] ∧
    (Java_com_tencent_benchmarkncnn_BenchmarkNcnn_Run hostNoGpu
      { sampleArgs with gpu := true, model := 9 }).evaluations = 0 :=
  Run_gpu_unavailable hostNoGpu { sampleArgs with gpu := true, model := 9 } rfl rfl

/-- C6, counterexample: with the loop count 0, `Run` performs 4 graph
evaluations and reports the status 0. -/
theorem Run_zero_loops_counterexample :
    ({ sampleArgs with loops := 0 } : Args).loops = 0 ∧
    (Java_com_tencent_benchmarkncnn_BenchmarkNcnn_Run hostNoGpu
      { sampleArgs with loops := 0 }).obj.retcode = 0 ∧
    (Java_com_tencent_benchmarkncnn_BenchmarkNcnn_Run hostNoGpu
      { sampleArgs with loops := 0 }).evaluations = 4 ∧
    ¬ ((Java_com_tencent_benchmarkncnn_BenchmarkNcnn_Run hostNoGpu
          { sampleArgs with loops := 0 }).evaluations = 0 ∧
       (Java_com_tencent_benchmarkncnn_BenchmarkNcnn_Run hostNoGpu
          { sampleArgs with loops := 0 }).obj.retcode ≠ 0) := by
  refine ⟨rfl, rfl, rfl, ?_⟩
  rintro ⟨h, _⟩
  exact absurd h (by decide)

/-- C6, amended. With the loop count 0, when use-GPU is not set or a compute
device is present and the model index is in the table, `Run` does not reject
the request: it calls `run`, which performs the 4 warm-up evaluations and no
other, and it reports the status 0. -/
theorem Run_zero_loops (host : Host) (a : Args) (hloops : a.loops = 0)
    (hgpu : ¬ (a.gpu = true ∧ host.gpu_count = 0)) (h0 : 0 ≤ a.model) (h2 : a.model < 2) :
    (Java_com_tencent_benchmarkncnn_BenchmarkNcnn_Run host a).obj.retcode = 0 ∧
    (Java_com_tencent_benchmarkncnn_BenchmarkNcnn_Run host a).evaluations = 4 ∧
    Event.run 0 ∈ (Java_com_tencent_benchmarkncnn_BenchmarkNcnn_Run host a).events := by
  have hguard : ¬ (a.model < 0 ∨ a.model ≥ (g_models.length : Int)) := by
    simp only [g_models, List.length_cons, List.length_nil]
    omega
  unfold Java_com_tencent_benchmarkncnn_BenchmarkNcnn_Run
  rw [if_neg hgpu, if_neg hguard]
  simp only [BenchmarkNet.run_ret, ne_eq, not_true_eq_false, if_false, hloops]
  refine ⟨trivial, ?_, ?_⟩
  · exact (BenchmarkNet.run_eq 0 host.env host.clock0).2.1
  · simp

/-- Witness of the amended C6: the first model without GPU. -/
theorem Run_zero_loops_witness :
    (Java_com_tencent_benchmarkncnn_BenchmarkNcnn_Run hostNoGpu
      { sampleArgs with loops := 0 }).obj.retcode = 0 ∧
    (Java_com_tencent_benchmarkncnn_BenchmarkNcnn_Run hostNoGpu
      { sampleArgs with loops := 0 }).evaluations = 4 ∧
    Event.run 0 ∈ (Java_com_tencent_benchmarkncnn_BenchmarkNcnn_Run hostNoGpu
      { sampleArgs with loops := 0 }).events :=
  Run_zero_loops hostNoGpu { sampleArgs with loops := 0 } rfl (by decide) (by decide)
    (by decide)

/-- The option bundle keeps the packed layout hint of the default-constructed
options, whatever the flags. -/
theorem prepare_opt_use_packing_layout (opt0 : ncnn.Option) (a : Args) :
    (prepare_opt opt0 a).use_packing_layout = opt0.use_packing_layout := by
  unfold prepare_opt
  split_ifs <;> rfl

/-- The flags `prepare_opt` copies, and the two fixed fields. -/
theorem prepare_opt_copied (opt0 : ncnn.Option) (a : Args) :
    (prepare_opt opt0 a).use_winograd_convolution = a.winograd ∧
    (prepare_opt opt0 a).use_sgemm_convolution = a.sgemm ∧
    (prepare_opt opt0 a).use_bf16_storage = a.bf16s ∧
    (prepare_opt opt0 a).use_vulkan_compute = a.gpu ∧
    (prepare_opt opt0 a).use_int8_storage = true ∧
    (prepare_opt opt0 a).use_int8_arithmetic = false :=
  ⟨rfl, rfl, rfl, rfl, rfl, rfl⟩

/-- C9, at the failing input: two requests that differ only in the pack4 flag
get the same option bundle, whose packed layout hint is the default `true`
also when pack4 is `false`. -/
theorem prepare_opt_drops_pack4 :
    prepare_opt sampleOption { sampleArgs with pack4 := false }
      = prepare_opt sampleOption { sampleArgs with pack4 := true } ∧
    ({ sampleArgs with pack4 := false } : Args).pack4 = false ∧
    (prepare_opt sampleOption { sampleArgs with pack4 := false }).use_packing_layout = true := by
  decide
